import Mathlib

/-!
Verification of the createnv template parsing and resolution engine.

The Rust sources are embedded shallowly: strings are `List Char` (Rust
`str::chars` iterates characters; indices computed by Rust on bytes are
modelled as character indices, which coincide on ASCII input — every
concrete input used below is ASCII unless a theorem is specifically about
multi-byte behaviour, where `Char.utf8Size` models byte lengths).
Fallible Rust functions return `Except`/`Option`; `anyhow` error messages
are modelled by a structured error type whose constructors correspond
one-to-one to the distinct `anyhow!` format strings, carrying the same
dynamic data (line number, offending text).
-/

/-- Strings as character lists (the unit `str::chars` iterates). -/
abbrev Str := List Char

/-- Rust `str::trim_start`: drop leading whitespace characters. -/
def trimLeft (s : Str) : Str := s.dropWhile Char.isWhitespace

/-- Rust `str::trim_end`: drop trailing whitespace characters. -/
def trimRight (s : Str) : Str := (s.reverse.dropWhile Char.isWhitespace).reverse

/-- Rust `str::trim` (as used on template lines and interactive input). -/
def trim (s : Str) : Str := trimRight (trimLeft s)

/-- `FIRST_CHAR` from `src/parser.rs`. -/
def firstChars : Str := "ABCDEFGHIJKLMNOPQRSTUVWXYZ".toList

/-- `NAME_CHARS` from `src/parser.rs`. -/
def nameChars : Str := "ABCDEFGHIJKLMNOPQRSTUVWXYZ0123456789_".toList

/-- `is_valid_name` from `src/parser.rs`: the first character must occur in
`FIRST_CHAR`, and every character must occur in `NAME_CHARS`. -/
def isValidName (name : Str) : Bool :=
  match name with
  | [] => false
  | c :: _ =>
    if (! firstChars.contains c) then false
    else name.all (fun d => nameChars.contains d)

theorem char_toNat_injective : Function.Injective Char.toNat := by
  intro a b h
  exact Char.ext (UInt32.ext h)

theorem isUpper_iff (c : Char) : c.isUpper = true ↔ (65 ≤ c.toNat ∧ c.toNat ≤ 90) := by
  simp only [Char.isUpper, Bool.and_eq_true, decide_eq_true_eq]
  exact Iff.rfl

theorem isDigit_iff (c : Char) : c.isDigit = true ↔ (48 ≤ c.toNat ∧ c.toNat ≤ 57) := by
  simp only [Char.isDigit, Bool.and_eq_true, decide_eq_true_eq]
  exact Iff.rfl

theorem mem_firstChars_iff (c : Char) : firstChars.contains c = true ↔ c.isUpper := by
  have hmap : firstChars.map Char.toNat =
      [65, 66, 67, 68, 69, 70, 71, 72, 73, 74, 75, 76, 77, 78, 79, 80, 81,
       82, 83, 84, 85, 86, 87, 88, 89, 90] := by decide
  rw [isUpper_iff]
  constructor
  · intro h
    have hmem : c ∈ firstChars := by simpa using h
    have hn : c.toNat ∈ firstChars.map Char.toNat := List.mem_map_of_mem _ hmem
    rw [hmap] at hn
    simp only [List.mem_cons, List.not_mem_nil, or_false] at hn
    omega
  · intro h
    have hn : c.toNat ∈ firstChars.map Char.toNat := by
      rw [hmap]
      simp only [List.mem_cons, List.not_mem_nil, or_false]
      omega
    have hmem : c ∈ firstChars := by
      rcases List.mem_map.mp hn with ⟨d, hd, hdc⟩
      rwa [char_toNat_injective hdc] at hd
    simpa using hmem

theorem mem_nameChars_iff (c : Char) :
    nameChars.contains c = true ↔ (c.isUpper ∨ c.isDigit ∨ c = '_') := by
  have hmap : nameChars.map Char.toNat =
      [65, 66, 67, 68, 69, 70, 71, 72, 73, 74, 75, 76, 77, 78, 79, 80, 81,
       82, 83, 84, 85, 86, 87, 88, 89, 90, 48, 49, 50, 51, 52, 53, 54, 55,
       56, 57, 95] := by decide
  have hund : c = '_' ↔ c.toNat = 95 := by
    constructor
    · intro h; subst h; decide
    · intro h; exact char_toNat_injective h
  constructor
  · intro h
    have hmem : c ∈ nameChars := by simpa using h
    have hn : c.toNat ∈ nameChars.map Char.toNat := List.mem_map_of_mem _ hmem
    rw [hmap] at hn
    simp only [List.mem_cons, List.not_mem_nil, or_false] at hn
    rw [isUpper_iff, isDigit_iff, hund]
    omega
  · intro h
    rw [isUpper_iff, isDigit_iff, hund] at h
    have hn : c.toNat ∈ nameChars.map Char.toNat := by
      rw [hmap]
      simp only [List.mem_cons, List.not_mem_nil, or_false]
      omega
    have hmem : c ∈ nameChars := by
      rcases List.mem_map.mp hn with ⟨d, hd, hdc⟩
      rwa [char_toNat_injective hdc] at hd
    simpa using hmem

/-- C7: `is_valid_name(NAME)` holds iff `NAME` is non-empty, its first character
is an uppercase ASCII letter, and every character is an uppercase ASCII letter,
a digit, or an underscore; `is_valid_name("42HELLO")` is false and
`is_valid_name("HELLO_WORLD_42")` is true. -/
theorem c7_is_valid_name_iff :
    (∀ name : Str, isValidName name = true ↔
      (∃ c cs, name = c :: cs ∧ c.isUpper ∧
        ∀ x ∈ name, (x.isUpper ∨ x.isDigit ∨ x = '_'))) ∧
    isValidName "42HELLO".toList = false ∧
    isValidName "HELLO_WORLD_42".toList = true := by
  refine ⟨?_, by decide, by decide⟩
  intro name
  cases name with
  | nil => simp [isValidName]
  | cons c cs =>
    simp only [isValidName]
    by_cases hc : firstChars.contains c = true
    · rw [if_neg (show ¬((! firstChars.contains c) = true) by rw [hc]; simp)]
      constructor
      · intro h
        refine ⟨c, cs, rfl, (mem_firstChars_iff c).mp hc, ?_⟩
        intro x hx
        have := (List.all_eq_true.mp h) x hx
        exact (mem_nameChars_iff x).mp this
      · rintro ⟨d, ds, heq, hupper, hall⟩
        cases heq
        rw [List.all_eq_true]
        intro x hx
        exact (mem_nameChars_iff x).mpr (hall x hx)
    · have hcf : firstChars.contains c = false := Bool.eq_false_iff.mpr hc
      rw [if_pos (show (! firstChars.contains c) = true by rw [hcf]; rfl)]
      constructor
      · intro h; exact absurd h (by simp)
      · rintro ⟨d, ds, heq, hupper, hall⟩
        cases heq
        exact absurd ((mem_firstChars_iff c).mpr hupper) hc

/-- Rust `str::find(char)`: index of the first occurrence (character index;
Rust returns a byte index, identical on ASCII input). -/
def findChar (c : Char) : Str → Option Nat
  | [] => none
  | d :: rest => if d = c then some 0 else (findChar c rest).map (· + 1)

/-- Rust `str::split_once(pat)` for a string pattern: split around the first
occurrence of `sep`. -/
def splitOnceSub (sep : Str) : Str → Option (Str × Str)
  | [] => if sep.isPrefixOf [] then some ([], []) else none
  | c :: rest =>
    if sep.isPrefixOf (c :: rest) then some ([], List.drop sep.length (c :: rest))
    else (splitOnceSub sep rest).map (fun p => (c :: p.1, p.2))

/-- Rust `str::split_once(char)`. -/
def splitOnceChar (c : Char) (s : Str) : Option (Str × Str) := splitOnceSub [c] s

/-- Rust `str::strip_prefix(str)`. -/
def stripPrefixOf (p s : Str) : Option Str :=
  if p.isPrefixOf s then some (s.drop p.length) else none

/-- Rust `str::strip_suffix(char)`. -/
def stripSuffixChar (c : Char) (s : Str) : Option Str :=
  if s.getLast? = some c then some (s.dropLast) else none

/-- Rust `str::parse::<usize>()`: an optional leading `+`, then one or more
ASCII digits, rejecting values over `usize::MAX` (64-bit). -/
def parseUsize (s : Str) : Option Nat :=
  let ds := match s with
    | '+' :: rest => rest
    | _ => s
  if ds = [] then none
  else if ds.all Char.isDigit then
    let n := ds.foldl (fun acc c => acc * 10 + (c.toNat - 48)) 0
    if n < 2 ^ 64 then some n else none
  else none

/-- `is_auto_generated_variable` from `src/parser.rs`. The Rust code slices
`value[first + 1..first + second]` where `second` is the index of `}` inside
`value[first + 1..]`; `none` models the panic when that slice has its start
after its end (`second == 0`, i.e. the value contains `{}`). Note the slice
ends one character short of the closing brace. -/
def isAutoGeneratedVariable (value : Str) : Option Bool :=
  match findChar '{' value with
  | none => some false
  | some first =>
    match findChar '}' (value.drop (first + 1)) with
    | none => some false
    | some second =>
      if second = 0 then none
      else some (isValidName ((value.drop (first + 1)).take (second - 1)))

/-- `RANDOM_VARIABLE_PREFIX` from `src/parser.rs`. -/
def randomVariablePre : Str := "<random".toList

/-- `is_random_variable` from `src/parser.rs`. -/
def isRandomVariable (value : Str) : Bool × Option Nat :=
  match stripPrefixOf randomVariablePre value with
  | none => (false, none)
  | some rest =>
    match stripSuffixChar '>' rest with
    | none => (false, none)
    | some number =>
      if number = [] then (true, none)
      else
        match number with
        | ':' :: digits =>
          match parseUsize digits with
          | some n => (true, some n)
          | none => (false, none)
        | _ => (false, none)

/-- `Comment` from `src/model.rs`. -/
structure Comment where
  contents : Str
deriving DecidableEq, Repr

/-- `Comment`'s `Display`: `# {contents}`. -/
def Comment.display (c : Comment) : Str := "# ".toList ++ c.contents

/-- `SimpleVariable` from `src/model.rs`. -/
structure SimpleVariable where
  name : Str
  default : Option Str
  help : Option Str
  input : Option Str
deriving DecidableEq, Repr

/-- `SimpleVariable::new`: `input` starts out empty. -/
def SimpleVariable.new (name : Str) (default : Option Str) (help : Option Str) :
    SimpleVariable :=
  ⟨name, default, help, none⟩

/-- `AutoGeneratedVariable` from `src/model.rs`. The `HashMap` context is
modelled as an association list without duplicate keys (`HashMap::insert`
overwrites); Rust's iteration order is unspecified, the model iterates in
list order, one possible execution. -/
structure AutoGeneratedVariable where
  name : Str
  pattern : Str
  context : List (Str × Str)
deriving DecidableEq, Repr

/-- `AutoGeneratedVariable::new`: empty context. -/
def AutoGeneratedVariable.new (name pattern : Str) : AutoGeneratedVariable :=
  ⟨name, pattern, []⟩

/-- `VariableWithRandomValue` from `src/model.rs` (present in the data model;
the line parser itself only ever constructs the other two variants). -/
structure VariableWithRandomValue where
  name : Str
  value : Str
deriving DecidableEq, Repr

/-- `VariableType` from `src/model.rs`. -/
inductive VariableType
  | input (v : SimpleVariable)
  | autoGenerated (v : AutoGeneratedVariable)
  | random (v : VariableWithRandomValue)
deriving DecidableEq, Repr

/-- `Block` from `src/model.rs` (`vars` models the field named `variables`,
which is a reserved word here). -/
structure Block where
  title : Comment
  description : Option Comment
  vars : List VariableType
deriving DecidableEq, Repr

/-- `Block::new`. -/
def Block.new (title : Comment) (description : Option Comment) : Block :=
  ⟨title, description, []⟩

/-- `Comment::new`. -/
def Comment.new (contents : Str) : Comment := ⟨contents⟩

/-- `Expecting` from `src/parser.rs` (`descOrVars`/`vars` model the
constructors `DescriptionOrVariables`/`Variables`; `variables` is reserved). -/
inductive Expecting
  | title
  | descOrVars
  | vars
deriving DecidableEq, Repr

/-- The distinct `anyhow!` errors of the engine, with their dynamic data:
`unexpectedTitle` = "Unexpected title on line {pos}: {line}",
`invalidVariableLine` = "Invalid variable line on line {pos}: {line}",
`invalidVariableName` = "Invalid variable name on line {pos}: {name}",
`truncatedBlock` = "Unexpected EOF while {state} at line {pos}: the last
block has no variables", `noValue` = "Variable {name} has no value". -/
inductive ParseError
  | unexpectedTitle (pos : Nat) (line : Str)
  | invalidVariableLine (pos : Nat) (line : Str)
  | invalidVariableName (pos : Nat) (name : Str)
  | truncatedBlock (pos : Nat) (state : Expecting)
  | noValue (name : Str)
deriving DecidableEq, Repr

/-- Result of a fallible engine step. `ok`/`err` mirror Rust's `Result`;
`diverges` marks a provably infinite recursion (see `askForInput`);
`panicked` marks a Rust panic (see `isAutoGeneratedVariable` and the empty
random alphabet). -/
inductive PResult (α : Type)
  | ok (a : α)
  | err (e : ParseError)
  | diverges
  | panicked
deriving DecidableEq, Repr

/-- `SimpleVariable`'s `Variable::value`: `input`, else `default`, else the
"Variable {} has no value" error. -/
def SimpleVariable.value (v : SimpleVariable) : Except ParseError Str :=
  match v.input with
  | some i => .ok i
  | none =>
    match v.default with
    | some d => .ok d
    | none => .error (.noValue v.name)

/-- The scan of Rust `str::replace` with an explicit step bound, so that it
computes by structural recursion: every step consumes at least one character
of `s`, so any `fuel ≥ s.length` gives the exact result (`replaceAll` below
passes `s.length`); on exhausted fuel the remaining text is returned
unchanged. -/
def replaceAllF (p : Char) (ps rep : Str) : Nat → Str → Str
  | 0, s => s
  | fuel + 1, s =>
    match s with
    | [] => []
    | c :: rest =>
      if (p :: ps).isPrefixOf (c :: rest) then
        rep ++ replaceAllF p ps rep fuel (rest.drop ps.length)
      else
        c :: replaceAllF p ps rep fuel rest

/-- Rust `str::replace(pat, rep)` for the nonempty pattern `p :: ps`:
replace leftmost non-overlapping occurrences, never rescanning replaced
text. -/
def replaceAll (s : Str) (p : Char) (ps rep : Str) : Str :=
  replaceAllF p ps rep s.length s

/-- `AutoGeneratedVariable`'s `Variable::value`: for each context entry
`(k, v)` in iteration order, replace every occurrence of the literal
`"{" + k + "}"` by `v` (sequentially — later entries see earlier entries'
substituted text). Always succeeds (`Ok` in Rust). -/
def AutoGeneratedVariable.value (v : AutoGeneratedVariable) : Str :=
  v.context.foldl (fun acc kv => replaceAll acc '{' (kv.1 ++ ['}']) kv.2) v.pattern

/-- `HashMap::insert` on the association-list model: overwrite the entry if
the key is present, append otherwise. -/
def assocUpd : List (Str × Str) → Str → Str → List (Str × Str)
  | [], k, v => [(k, v)]
  | (k', v') :: rest, k, v =>
    if k' = k then (k, v) :: rest else (k', v') :: assocUpd rest k v

/-- `AutoGeneratedVariable::load_context`: insert every entry of `ctx` into
the variable's context map. -/
def AutoGeneratedVariable.loadContext (v : AutoGeneratedVariable)
    (ctx : List (Str × Str)) : AutoGeneratedVariable :=
  { v with context := ctx.foldl (fun m kv => assocUpd m kv.1 kv.2) v.context }

/-- Key of a `VariableType` (the `Variable::key` implementations all clone
the `name` field). -/
def VariableType.nameOf : VariableType → Str
  | .input v => v.name
  | .autoGenerated v => v.name
  | .random v => v.name

/-- `Variable::value` dispatched over the three variants. -/
def VariableType.valueOf : VariableType → Except ParseError Str
  | .input v => v.value
  | .autoGenerated v => .ok v.value
  | .random v => .ok v.value

/-- `Variable::as_text`: `"{key}={value?}"`. -/
def VariableType.asText (v : VariableType) : Except ParseError Str :=
  (v.valueOf).map (fun s => v.nameOf ++ '=' :: s)

/-- `SimpleVariable::ask_for_input` from `src/model.rs`, over a terminal
modelled as the list of lines left on the interactive stream. At
end-of-input (`[]`) Rust's `read_line` returns `Ok(0)` leaving the buffer
empty; with no default the code then recurses with entirely unchanged
state — an infinite loop, modelled as `.diverges` — and with a default it
returns `Ok` keeping the default. On a read line, an empty trimmed value
with no default retries on the rest of the stream; a nonempty value is
stored as `input`. -/
def askForInput (v : SimpleVariable) : List Str → PResult (SimpleVariable × List Str)
  | [] => if v.default.isNone then .diverges else .ok (v, [])
  | line :: rest =>
    let value := trim line
    if value = [] then
      if v.default.isNone then askForInput v rest
      else .ok (v, rest)
    else .ok ({ v with input := some value }, rest)

/-- The prompting pass of `Block::resolve`: every `Input` variable whose
`input` is unset is asked for input, threading the terminal. The
`useDefault` short-circuit is modelled from the spec (see `Block.resolve`). -/
def resolveVars (useDefault : Bool) :
    List VariableType → List Str → PResult (List VariableType × List Str)
  | [], term => .ok ([], term)
  | v :: vs, term =>
    match v with
    | .input sv =>
      if sv.input.isNone && !(useDefault && sv.default.isSome) then
        match askForInput sv term with
        | .ok (sv', term') =>
          match resolveVars useDefault vs term' with
          | .ok (vs', term'') => .ok (.input sv' :: vs', term'')
          | .err e => .err e
          | .diverges => .diverges
          | .panicked => .panicked
        | .err e => .err e
        | .diverges => .diverges
        | .panicked => .panicked
      else
        match resolveVars useDefault vs term with
        | .ok (vs', term') => .ok (.input sv :: vs', term')
        | .err e => .err e
        | .diverges => .diverges
        | .panicked => .panicked
    | w =>
      match resolveVars useDefault vs term with
      | .ok (vs', term') => .ok (w :: vs', term')
      | .err e => .err e
      | .diverges => .diverges
      | .panicked => .panicked

/-- `Block::has_auto_generated_variables`. -/
def Block.hasAutoGeneratedVariables (b : Block) : Bool :=
  b.vars.any (fun v => match v with
    | .autoGenerated _ => true
    | _ => false)

/-- The context-building loop of `Block::resolve`: insert `key → value?` for
every `Input` and `Random` variable, in order, skipping `AutoGenerated`
ones; a failing `value()` aborts with its error. -/
def buildContextAux (acc : List (Str × Str)) :
    List VariableType → Except ParseError (List (Str × Str))
  | [] => .ok acc
  | v :: vs =>
    match v with
    | .autoGenerated _ => buildContextAux acc vs
    | .input sv =>
      match sv.value with
      | .ok s => buildContextAux (assocUpd acc sv.name s) vs
      | .error e => .error e
    | .random rv => buildContextAux (assocUpd acc rv.name rv.value) vs

/-- `Block::resolve`. `src/parser.rs` calls `block.resolve(terminal,
self.use_default)`, a two-argument version that the `src/model.rs` snapshot
does not contain (its `resolve` takes only the terminal). Modelled from the
spec: the CLI's use-defaults-without-asking flag suppresses the interactive
prompt for variables that have a default; with `useDefault = false` this is
exactly `Block::resolve` from `src/model.rs`: prompt for unset `Input`
variables, then — only if an auto-generated variable exists — build the
context from every `Input`/`Random` variable and load it into each
`AutoGenerated` variable. -/
def Block.resolve (b : Block) (terminal : List Str) (useDefault : Bool) :
    PResult (Block × List Str) :=
  match resolveVars useDefault b.vars terminal with
  | .err e => .err e
  | .diverges => .diverges
  | .panicked => .panicked
  | .ok (vs, term) =>
    let b' : Block := { b with vars := vs }
    if ! b'.hasAutoGeneratedVariables then .ok (b', term)
    else
      match buildContextAux [] vs with
      | .error e => .err e
      | .ok ctx =>
        .ok ({ b' with vars := vs.map (fun v => match v with
          | .autoGenerated av => .autoGenerated (av.loadContext ctx)
          | w => w) }, term)

/-- Join lines with a `\n` separator (Rust `Vec::join("\n")` — note: no
trailing newline). -/
def joinNL : List Str → Str
  | [] => []
  | [l] => l
  | l :: ls => l ++ '\n' :: joinNL ls

/-- `Block::as_text` from `src/model.rs`: title line, description line when
present, then one `NAME=value` line per variable, joined with `\n`. -/
def Block.asText (b : Block) : Except ParseError Str :=
  match b.vars.mapM VariableType.asText with
  | .error e => .error e
  | .ok ls =>
    .ok (joinNL ([b.title.display] ++
      (match b.description with
       | some d => [d.display]
       | none => []) ++ ls))

/-- The random-string loop of `Parser::parse_random_variable`: `length`
characters, each picked at an index drawn by `gen_range(0..alphabet length)`.
Randomness is modelled by the oracle `draws`: draw `i + 1` reduced modulo the
alphabet length is the `i`-th picked index (always in range, as `gen_range`
guarantees); `getD` never falls to its default since the index is below the
length. -/
def genChars (chars : Str) (draws : Nat → Nat) (length : Nat) : Str :=
  (List.range length).map (fun i => chars.getD (draws (i + 1) % chars.length) ' ')

/-- `Parser::parse_random_variable` from `src/parser.rs`: when the value is a
random spec, materialize a `SimpleVariable` whose default is a generated
string of the requested length (or of length `gen_range(64..=128)`, modelled
as `64 + draws 0 % 65`, when no length is given), drawn from the parser's
configured alphabet. `.error ()` models the `gen_range(0..0)` panic when the
alphabet is empty and at least one character must be drawn. -/
def parseRandomVariable (randomChars : Str) (draws : Nat → Nat) (name : Str)
    (description : Option Str) (value : Str) : Except Unit (Option SimpleVariable) :=
  match isRandomVariable value with
  | (true, size) =>
    let length := match size with
      | some n => n
      | none => 64 + draws 0 % 65
    if 0 < length ∧ randomChars.length = 0 then .error ()
    else .ok (some (SimpleVariable.new name
      (some (genChars randomChars draws length)) description))
  | (false, _) => .ok none

/-- `Parser::parse_auto_generated_variable`: `some` of the constructed
variable when the value matches, `some none` when it does not; the outer
`none` propagates `is_auto_generated_variable`'s panic. -/
def parseAutoGeneratedVariable (name value : Str) :
    Option (Option AutoGeneratedVariable) :=
  match isAutoGeneratedVariable value with
  | none => none
  | some true => some (some (AutoGeneratedVariable.new name value))
  | some false => some none

/-- The `"  # "` help separator from `Parser::parse_variable`. -/
def helpSep : Str := "  # ".toList

/-- `Parser::parse_variable` from `src/parser.rs`: split `NAME=rest` on the
first `=`, validate the name, split the rest on `"  # "` into
default/help, then classify: empty default → prompt-only `SimpleVariable`;
random spec → generated `SimpleVariable`; auto-generated pattern →
`AutoGeneratedVariable`; otherwise a literal-default `SimpleVariable`. -/
def parseVariable (randomChars : Str) (draws : Nat → Nat) (pos : Nat)
    (line : Str) : PResult VariableType :=
  match splitOnceChar '=' line with
  | none => .err (.invalidVariableLine pos line)
  | some (name, rest) =>
    if ! isValidName name then .err (.invalidVariableName pos name)
    else
      let dh : Option Str × Option Str :=
        match splitOnceSub helpSep rest with
        | some (d, h) => (some d, some h)
        | none => (some rest, none)
      match dh with
      | (some val, description) =>
        if val = [] then .ok (.input (SimpleVariable.new name none description))
        else
          match parseRandomVariable randomChars draws name description val with
          | .error _ => .panicked
          | .ok (some v) => .ok (.input v)
          | .ok none =>
            match parseAutoGeneratedVariable name val with
            | none => .panicked
            | some (some v) => .ok (.autoGenerated v)
            | some none => .ok (.input (SimpleVariable.new name (some val) description))
      | (none, description) => .ok (.input (SimpleVariable.new name none description))

/-- The `Parser` fields that evolve during `parse` (`path`, `random_chars`
and `use_default` are passed separately; `blocks` collects resolved blocks). -/
structure PState where
  state : Expecting
  buffer : Option Block
  blocks : List Block
deriving DecidableEq, Repr

/-- `Parser::flush`: if a block is buffered, resolve it, append it to
`blocks` and clear the buffer; a no-op otherwise. -/
def flush (ps : PState) (useDefault : Bool) (terminal : List Str) :
    PResult (PState × List Str) :=
  match ps.buffer with
  | none => .ok (ps, terminal)
  | some b =>
    match b.resolve terminal useDefault with
    | .ok (b', term') =>
      .ok ({ ps with blocks := ps.blocks ++ [b'], buffer := none }, term')
    | .err e => .err e
    | .diverges => .diverges
    | .panicked => .panicked

/-- The line loop of `Parser::parse`: each line is trimmed; a blank line
flushes and resets the state to `Title`; otherwise the state machine of
`src/parser.rs` lines 201–234 runs. `draws pos` is the randomness oracle
used for the variable classified at (1-based) line `pos`. Returns the final
parser state, the remaining terminal and the final `cursor`. -/
def processLines (randomChars : Str) (draws : Nat → Nat → Nat) (useDefault : Bool) :
    List Str → Nat → PState → List Str → PResult (PState × List Str × Nat)
  | [], cursor, ps, term => .ok (ps, term, cursor)
  | l :: ls, cursor, ps, term =>
    let cur := cursor + 1
    let cleaned := trim l
    if cleaned = [] then
      match flush ps useDefault term with
      | .ok (ps', term') =>
        processLines randomChars draws useDefault ls cur
          { ps' with state := .title } term'
      | .err e => .err e
      | .diverges => .diverges
      | .panicked => .panicked
    else
      match ps.state with
      | .title =>
        match cleaned with
        | '#' :: txt =>
          processLines randomChars draws useDefault ls cur
            { ps with buffer := some (Block.new (Comment.new (trim txt)) none),
                      state := .descOrVars } term
        | _ => .err (.unexpectedTitle cur cleaned)
      | .descOrVars =>
        match cleaned with
        | '#' :: txt =>
          let buf := ps.buffer.map
            (fun b => { b with description := some (Comment.new (trim txt)) })
          processLines randomChars draws useDefault ls cur
            { ps with buffer := buf, state := .vars } term
        | _ =>
          match parseVariable randomChars (draws cur) cur cleaned with
          | .ok v =>
            let buf := ps.buffer.map (fun b => { b with vars := b.vars ++ [v] })
            processLines randomChars draws useDefault ls cur
              { ps with buffer := buf } term
          | .err e => .err e
          | .diverges => .diverges
          | .panicked => .panicked
      | .vars =>
        match parseVariable randomChars (draws cur) cur cleaned with
        | .ok v =>
          let buf := ps.buffer.map (fun b => { b with vars := b.vars ++ [v] })
          processLines randomChars draws useDefault ls cur
            { ps with buffer := buf } term
        | .err e => .err e
        | .diverges => .diverges
        | .panicked => .panicked

/-- The initial parser state (`Parser::new`). -/
def initPS : PState := ⟨.title, none, []⟩

/-- The EOF check of `Parser::parse`:
`self.buffer.as_ref().map(|b| !b.variables.is_empty()).unwrap_or(false)`. -/
def lastBlockHasVars (buf : Option Block) : Bool :=
  match buf with
  | some b => ! b.vars.isEmpty
  | none => false

/-- `Parser::parse` from `src/parser.rs`, over the template's lines (Rust
reads them with `BufReader::lines`, which strips line terminators): run the
line loop, then — at end-of-input — fail with the truncated-block error
unless a block is buffered and it has at least one variable, and
finally flush the buffered block. -/
def Parser.parse (randomChars : Str) (draws : Nat → Nat → Nat) (useDefault : Bool)
    (lines : List Str) (terminal : List Str) : PResult (List Block) :=
  match processLines randomChars draws useDefault lines 0 initPS terminal with
  | .ok (ps, term, cursor) =>
    if lastBlockHasVars ps.buffer then
      match flush ps useDefault term with
      | .ok (ps', _) => .ok ps'.blocks
      | .err e => .err e
      | .diverges => .diverges
      | .panicked => .panicked
    else .err (.truncatedBlock cursor ps.state)
  | .err e => .err e
  | .diverges => .diverges
  | .panicked => .panicked

/-- The auto-generated test as the spec words it: the value contains a
`{NAME}` placeholder whose name is a valid variable name. -/
def specAutoGenerated (value : Str) : Prop :=
  ∃ pre name suf, value = pre ++ '{' :: (name ++ '}' :: suf) ∧ isValidName name = true

/-- C2 (code bug): the spec classifies any value containing `{NAME}` with a
valid `NAME` as auto-generated, but `is_auto_generated_variable` slices
`value[first + 1..first + second]` — one character short — so the
single-letter placeholder `{A}` tests `is_valid_name("")` and is rejected,
and the whole line is classified as a `SimpleVariable` with the literal
default; a value whose first brace pair is invalid but whose later pair is
valid (`{a}{BC}`) is likewise rejected, since only the first `{` and the
first following `}` are examined. -/
theorem c2_auto_generated_off_by_one :
    specAutoGenerated ['{', 'A', '}'] ∧
    isAutoGeneratedVariable ['{', 'A', '}'] = some false ∧
    specAutoGenerated ['{', 'a', '}', '{', 'B', 'C', '}'] ∧
    isAutoGeneratedVariable ['{', 'a', '}', '{', 'B', 'C', '}'] = some false ∧
    parseVariable ['a'] (fun _ => 0) 1 ('X' :: '=' :: ['{', 'A', '}']) =
      .ok (.input (SimpleVariable.new ['X'] (some ['{', 'A', '}']) none)) := by
  refine ⟨⟨[], ['A'], [], rfl, by decide⟩, by decide,
          ⟨['{', 'a', '}'], ['B', 'C'], [], rfl, by decide⟩, by decide, by decide⟩

/-- C3 counterexample: a `SimpleVariable` with no default and no prior input
resolved against an exhausted interactive stream does not produce an error —
the retry loop recurses forever (`.diverges`), in particular it is not the
"Variable NAME has no value" error the engine owns. -/
theorem c3_counterexample :
    Block.resolve ⟨⟨['T']⟩, none, [.input (SimpleVariable.new ['N'] none none)]⟩
        [] false = .diverges ∧
    (PResult.diverges : PResult (Block × List Str)) ≠ .err (.noValue ['N']) := by
  exact ⟨by decide, by decide⟩

/-- C3 (amended): for every `SimpleVariable` with no default and no prior
input, resolution against an exhausted interactive stream neither fails nor
terminates: `ask_for_input` reads an empty line at end-of-input and recurses
with unchanged state, so `Block::resolve` diverges; the explicit error
naming the variable exists only in `SimpleVariable::value`, which this path
never reaches. -/
theorem c3_exhausted_stream_diverges (name : Str) (help : Option Str)
    (title : Comment) (desc : Option Comment) (ud : Bool) :
    askForInput (SimpleVariable.new name none help) [] = .diverges ∧
    Block.resolve ⟨title, desc, [.input (SimpleVariable.new name none help)]⟩
        [] ud = .diverges ∧
    (SimpleVariable.new name none help).value = .error (.noValue name) := by
  refine ⟨by simp [askForInput, SimpleVariable.new], ?_,
          by simp [SimpleVariable.value, SimpleVariable.new]⟩
  simp [Block.resolve, resolveVars, askForInput, SimpleVariable.new]

/-- The value used in the C9 counterexample: `<random:{AB}>`. -/
def vC9 : Str := "<random:".toList ++ '{' :: 'A' :: 'B' :: '}' :: '>' :: []

/-- C9 counterexample: the value `<random:{AB}>` starts with `<random` and is
not a well-formed random spec, yet the classifier does not fall through to a
`SimpleVariable` with the literal default — the value contains the brace
pair `{AB}` accepted by the auto-generated check, so an
`AutoGeneratedVariable` is produced instead. -/
theorem c9_counterexample :
    randomVariablePre.isPrefixOf vC9 = true ∧
    isRandomVariable vC9 = (false, none) ∧
    parseVariable ['a'] (fun _ => 0) 1 ('X' :: '=' :: vC9) =
      .ok (.autoGenerated (AutoGeneratedVariable.new ['X'] vC9)) ∧
    parseVariable ['a'] (fun _ => 0) 1 ('X' :: '=' :: vC9) ≠
      .ok (.input (SimpleVariable.new ['X'] (some vC9) none)) := by
  exact ⟨by decide, by decide, by decide, by decide⟩

theorem stripPrefixOf_eq_some_iff (p s t : Str) :
    stripPrefixOf p s = some t ↔ s = p ++ t := by
  unfold stripPrefixOf
  by_cases h : p.isPrefixOf s = true
  · rw [if_pos h]
    rw [List.isPrefixOf_iff_prefix] at h
    obtain ⟨u, hu⟩ := h
    subst hu
    simp [List.drop_left]
  · rw [if_neg h]
    simp only [reduceCtorEq, false_iff]
    intro h'
    subst h'
    exact h (by rw [List.isPrefixOf_iff_prefix]; exact List.prefix_append p t)

theorem stripSuffixChar_eq_some_iff (c : Char) (s t : Str) :
    stripSuffixChar c s = some t ↔ s = t ++ [c] := by
  unfold stripSuffixChar
  by_cases h : s.getLast? = some c
  · rw [if_pos h]
    constructor
    · intro h'
      obtain rfl : s.dropLast = t := by simpa using h'
      exact Eq.symm (List.dropLast_append_getLast? c h)
    · intro h'
      subst h'
      simp [List.dropLast_concat]
  · rw [if_neg h]
    simp only [reduceCtorEq, false_iff]
    intro h'
    subst h'
    exact h (by simp [List.getLast?_concat])

/-- The random-value shape as the spec words it: exactly `<random>`, or
`<random:N>` with `N` a parseable non-negative integer. -/
def specRandomShape (value : Str) : Prop :=
  value = "<random>".toList ∨
  ∃ ds n, value = "<random:".toList ++ ds ++ ['>'] ∧ parseUsize ds = some n

theorem randomVariablePre_chars :
    randomVariablePre = ['<', 'r', 'a', 'n', 'd', 'o', 'm'] := by decide

theorem randomColon_chars :
    "<random:".toList = ['<', 'r', 'a', 'n', 'd', 'o', 'm', ':'] := by decide

theorem isRandomVariable_fst_true_iff (value : Str) :
    (isRandomVariable value).1 = true ↔ specRandomShape value := by
  constructor
  · intro h
    unfold isRandomVariable at h
    split at h
    · simp at h
    next rest hp =>
      split at h
      · simp at h
      next number hs =>
        obtain rfl := (stripPrefixOf_eq_some_iff _ _ _).mp hp
        obtain rfl := (stripSuffixChar_eq_some_iff _ _ _).mp hs
        split at h
        next hn =>
          subst hn
          left
          decide
        next hn =>
          split at h
          next digits =>
            split at h
            next n hu =>
              right
              refine ⟨digits, n, ?_, hu⟩
              rw [randomVariablePre_chars, randomColon_chars]
              simp
            · simp at h
          · simp at h
  · intro h
    rcases h with h | ⟨ds, n, hv, hu⟩
    · subst h; decide
    · subst hv
      unfold isRandomVariable
      have hsplit : ("<random:".toList : Str) ++ ds ++ ['>'] =
          randomVariablePre ++ (':' :: (ds ++ ['>'])) := by
        rw [randomVariablePre_chars, randomColon_chars]
        simp
      have h1 : stripPrefixOf randomVariablePre (randomVariablePre ++ (':' :: (ds ++ ['>']))) =
          some (':' :: (ds ++ ['>'])) := (stripPrefixOf_eq_some_iff _ _ _).mpr rfl
      have h2 : stripSuffixChar '>' (':' :: (ds ++ ['>'])) = some (':' :: ds) :=
        (stripSuffixChar_eq_some_iff '>' (':' :: (ds ++ ['>'])) (':' :: ds)).mpr rfl
      rw [hsplit]
      split
      next heq => rw [h1] at heq; cases heq
      next rest heq =>
        rw [h1] at heq
        injection heq with heq
        subst heq
        split
        next heq2 => rw [h2] at heq2; cases heq2
        next number heq2 =>
          rw [h2] at heq2
          injection heq2 with heq2
          subst heq2
          rw [if_neg (by simp)]
          simp [hu]

theorem eq_sign_not_in_valid_name (name : Str) (h : isValidName name = true) :
    '=' ∉ name := by
  intro hmem
  cases name with
  | nil => cases hmem
  | cons c cs =>
    simp only [isValidName] at h
    by_cases hc : firstChars.contains c = true
    · rw [if_neg (show ¬((! firstChars.contains c) = true) by rw [hc]; simp)] at h
      have := (List.all_eq_true.mp h) '=' hmem
      have h2 := (mem_nameChars_iff '=').mp this
      revert h2
      decide
    · have hcf : firstChars.contains c = false := Bool.eq_false_iff.mpr hc
      rw [if_pos (show (! firstChars.contains c) = true by rw [hcf]; rfl)] at h
      cases h

theorem splitOnceChar_append (c : Char) (name rest : Str) (h : c ∉ name) :
    splitOnceChar c (name ++ c :: rest) = some (name, rest) := by
  induction name with
  | nil =>
    simp [splitOnceChar, splitOnceSub, List.isPrefixOf]
  | cons d ds ih =>
    have hdc : ¬(c == d) = true := by
      simp only [beq_iff_eq]
      intro hcd
      exact h (by rw [hcd]; exact List.mem_cons_self d _)
    have hnotin : c ∉ ds := fun hm => h (List.mem_cons_of_mem d hm)
    simp only [splitOnceChar, splitOnceSub, List.cons_append] at ih ⊢
    rw [if_neg (by simp [List.isPrefixOf, hdc])]
    simp only [List.append_eq]
    rw [ih hnotin]
    rfl

theorem splitOnceChar_eq_none (c : Char) (s : Str) (h : c ∉ s) :
    splitOnceChar c s = none := by
  induction s with
  | nil => simp [splitOnceChar, splitOnceSub, List.isPrefixOf]
  | cons d ds ih =>
    have hdc : ¬(c == d) = true := by
      simp only [beq_iff_eq]
      intro hcd
      exact h (by rw [hcd]; exact List.mem_cons_self d _)
    have hnotin : c ∉ ds := fun hm => h (List.mem_cons_of_mem d hm)
    simp only [splitOnceChar, splitOnceSub] at ih ⊢
    rw [if_neg (by simp [List.isPrefixOf, hdc])]
    rw [ih hnotin]
    rfl

/-- C9 (amended): a line `NAME=value` with valid `NAME` whose value starts
with `<random` but is not an exact random spec does not produce an error;
provided the value also contains no help separator and no brace pair that
the (buggy, see C2) auto-generated check accepts, the classifier silently
falls through to a `SimpleVariable` whose default is the literal value
(if the value does contain such a brace pair, an `AutoGeneratedVariable` is
produced instead — see the counterexample). -/
theorem c9_random_like_fallthrough (rc : Str) (draws : Nat → Nat) (pos : Nat)
    (name value : Str)
    (hname : isValidName name = true)
    (hpre : randomVariablePre.isPrefixOf value = true)
    (hshape : ¬ specRandomShape value)
    (hauto : isAutoGeneratedVariable value = some false)
    (hhelp : splitOnceSub helpSep value = none) :
    parseVariable rc draws pos (name ++ '=' :: value) =
      .ok (.input (SimpleVariable.new name (some value) none)) := by
  have hsplit := splitOnceChar_append '=' name value (eq_sign_not_in_valid_name name hname)
  have hvne : value ≠ [] := by
    intro hv
    rw [hv] at hpre
    revert hpre
    decide
  have hrand : (isRandomVariable value).1 = false := by
    cases hb : (isRandomVariable value).1
    · rfl
    · exact absurd ((isRandomVariable_fst_true_iff value).mp hb) hshape
  rcases hrv : isRandomVariable value with ⟨b, sz⟩
  have hb : b = false := by rw [hrv] at hrand; exact hrand
  subst hb
  unfold parseVariable
  rw [hsplit]
  simp only [hname, Bool.not_true, Bool.false_eq_true, if_false, hhelp]
  rw [if_neg hvne]
  unfold parseRandomVariable
  rw [hrv]
  simp only [parseAutoGeneratedVariable, hauto]

theorem genChars_length (chars : Str) (draws : Nat → Nat) (n : Nat) :
    (genChars chars draws n).length = n := by
  simp [genChars]

theorem genChars_mem (chars : Str) (draws : Nat → Nat) (n : Nat)
    (h : chars ≠ []) : ∀ c ∈ genChars chars draws n, c ∈ chars := by
  intro c hc
  simp only [genChars, List.mem_map, List.mem_range] at hc
  obtain ⟨i, _, rfl⟩ := hc
  have hlen : 0 < chars.length := List.length_pos.mpr h
  have hlt : draws (i + 1) % chars.length < chars.length := Nat.mod_lt _ hlen
  rw [List.getD_eq_getElem chars ' ' hlt]
  exact List.getElem_mem hlt

/-- C6: `<random:42>` is recognized (`(true, Some 42)`) and yields a generated
default of length exactly 42; `<random>` is recognized (`(true, None)`) and
yields a generated default whose length lies in `[64, 128]`; `random:42`
(missing angle brackets) is not recognized and produces no random variable;
every generated character is drawn from the configured alphabet. -/
theorem c6_random_spec (chars : Str) (draws : Nat → Nat) (name : Str)
    (help : Option Str) (hne : chars ≠ []) :
    isRandomVariable "<random:42>".toList = (true, some 42) ∧
    isRandomVariable "<random>".toList = (true, none) ∧
    isRandomVariable "random:42".toList = (false, none) ∧
    parseRandomVariable chars draws name help "<random:42>".toList =
      .ok (some (SimpleVariable.new name (some (genChars chars draws 42)) help)) ∧
    (genChars chars draws 42).length = 42 ∧
    (∃ n, 64 ≤ n ∧ n ≤ 128 ∧
      parseRandomVariable chars draws name help "<random>".toList =
        .ok (some (SimpleVariable.new name (some (genChars chars draws n)) help)) ∧
      (genChars chars draws n).length = n) ∧
    parseRandomVariable chars draws name help "random:42".toList = .ok none ∧
    (∀ m, ∀ c ∈ genChars chars draws m, c ∈ chars) := by
  have hlen : chars.length ≠ 0 := fun h0 => hne (List.length_eq_zero.mp h0)
  refine ⟨by decide, by decide, by decide, ?_, genChars_length chars draws 42,
          ⟨64 + draws 0 % 65, by omega, by omega, ?_, genChars_length _ _ _⟩, ?_,
          fun m => genChars_mem chars draws m hne⟩
  · unfold parseRandomVariable
    rw [show isRandomVariable "<random:42>".toList = (true, some 42) from by decide]
    simp [hlen]
  · unfold parseRandomVariable
    rw [show isRandomVariable "<random>".toList = (true, none) from by decide]
    simp [hlen]
  · unfold parseRandomVariable
    rw [show isRandomVariable "random:42".toList = ((false : Bool), (none : Option Nat))
      from by decide]

/-- Witness for C6 at the two-letter alphabet `ab` and the all-zero oracle. -/
theorem c6_random_spec_witness :
    (['a', 'b'] : Str) ≠ [] ∧
    (genChars ['a', 'b'] (fun _ => 0) 42).length = 42 := by
  constructor
  · decide
  · exact (c6_random_spec ['a', 'b'] (fun _ => 0) ['N'] none (by decide)).2.2.2.2.1

/-- The first context entry whose placeholder `{k}` begins at the front of
`s`. -/
def findEntry (ctx : List (Str × Str)) (s : Str) : Option (Str × Str) :=
  ctx.find? (fun kv => ('{' :: (kv.1 ++ ['}'])).isPrefixOf s)

/-- Simultaneous substitution as the spec words it, with the same explicit
step bound as `replaceAllF` (every step consumes at least one character, so
`fuel = s.length` — what `specSubstitute` passes — gives the exact result):
one left-to-right pass over the pattern; wherever a context entry's
placeholder `{NAME}` starts, `context[NAME]` is emitted and the placeholder
skipped; everything else — including placeholders of names absent from the
context — is left verbatim. Defined from the spec's words to compare
against `AutoGeneratedVariable.value` (refinement check). -/
def specSubstituteF (ctx : List (Str × Str)) : Nat → Str → Str
  | 0, s => s
  | fuel + 1, s =>
    match s with
    | [] => []
    | c :: rest =>
      match findEntry ctx (c :: rest) with
      | some kv => kv.2 ++ specSubstituteF ctx fuel (rest.drop (kv.1.length + 1))
      | none => c :: specSubstituteF ctx fuel rest

/-- The simultaneous substitution of the whole pattern. -/
def specSubstitute (ctx : List (Str × Str)) (s : Str) : Str :=
  specSubstituteF ctx s.length s

theorem replaceAllF_eq_specSubstituteF_single (k v : Str) :
    ∀ (fuel : Nat) (p : Str),
      replaceAllF '{' (k ++ ['}']) v fuel p = specSubstituteF [(k, v)] fuel p := by
  intro fuel
  induction fuel with
  | zero => intro p; rfl
  | succ n ih =>
    intro p
    cases p with
    | nil => rfl
    | cons c rest =>
      rw [replaceAllF, specSubstituteF]
      have hfe : findEntry [(k, v)] (c :: rest) =
          if ('{' :: (k ++ ['}'])).isPrefixOf (c :: rest) = true then some (k, v)
          else none := by
        unfold findEntry
        by_cases h : ('{' :: (k ++ ['}'])).isPrefixOf (c :: rest) = true
        · rw [if_pos h]
          simp [List.find?, h]
        · have hf : ('{' :: (k ++ ['}'])).isPrefixOf (c :: rest) = false :=
            Bool.eq_false_iff.mpr h
          rw [if_neg h]
          simp [List.find?, hf]
      by_cases hpre : ('{' :: (k ++ ['}'])).isPrefixOf (c :: rest) = true
      · rw [if_pos hpre, hfe, if_pos hpre]
        simp only [List.length_append, List.length_cons, List.length_nil]
        rw [ih]
      · rw [if_neg hpre, hfe, if_neg hpre]
        rw [ih]

/-- The two-entry context of the C4 counterexample: `A → {B}`, `B → x`. -/
def ctxC4 : List (Str × Str) := [(['A'], ['{', 'B', '}']), (['B'], ['x'])]

/-- C4 counterexample: `value()` substitutes sequentially, one context entry
at a time, so with context `A → "{B}", B → "x"` (iterated in that order) the
pattern `{A}` renders `"x"` — the text substituted for `{A}` is itself
substituted by the later entry — whereas replacing every pattern occurrence
of `{NAME}` by `context[NAME]` yields `"{B}"`. -/
theorem c4_counterexample :
    AutoGeneratedVariable.value ⟨['X'], ['{', 'A', '}'], ctxC4⟩ = ['x'] ∧
    specSubstitute ctxC4 ['{', 'A', '}'] = ['{', 'B', '}'] ∧
    (['x'] : Str) ≠ ['{', 'B', '}'] := by
  refine ⟨by decide, ?_, by decide⟩
  decide

/-- C4 (amended): `value()` never returns an error, and substitutes
sequentially: one `str::replace` per context entry in iteration order, each
pass replacing every occurrence of `{NAME}` without rescanning substituted
text. For a single-entry context this coincides exactly with the spec's
simultaneous substitution (every pattern occurrence replaced, absent
placeholders verbatim); the spec's own example renders `"Forty two"` under
either iteration order of its two entries, and an absent name's placeholder
stays verbatim. With several entries, substituted text containing a later
entry's placeholder is substituted again, so the result can differ from the
simultaneous reading (see the counterexample). -/
theorem c4_substitution :
    (∀ (nm p k v : Str),
      AutoGeneratedVariable.value ⟨nm, p, [(k, v)]⟩ = specSubstitute [(k, v)] p) ∧
    AutoGeneratedVariable.value ⟨"ANSWER".toList, "{FIRST} {SECOND}".toList,
      [("FIRST".toList, "Forty".toList), ("SECOND".toList, "two".toList)]⟩ =
      "Forty two".toList ∧
    AutoGeneratedVariable.value ⟨"ANSWER".toList, "{FIRST} {SECOND}".toList,
      [("SECOND".toList, "two".toList), ("FIRST".toList, "Forty".toList)]⟩ =
      "Forty two".toList ∧
    AutoGeneratedVariable.value ⟨"ANSWER".toList, "{FIRST} {ABSENT}".toList,
      [("FIRST".toList, "Forty".toList)]⟩ = "Forty {ABSENT}".toList := by
  refine ⟨?_, by decide, by decide, by decide⟩
  intro nm p k v
  show replaceAll p '{' (k ++ ['}']) v = specSubstitute [(k, v)] p
  unfold replaceAll specSubstitute
  exact replaceAllF_eq_specSubstituteF_single k v p.length p

theorem askForInput_not_err (v : SimpleVariable) :
    ∀ (term : List Str) (e : ParseError),
      askForInput v term ≠ .err e ∧ askForInput v term ≠ .panicked := by
  intro term
  induction term with
  | nil =>
    intro e
    unfold askForInput
    split <;> exact ⟨by simp, by simp⟩
  | cons line rest ih =>
    intro e
    unfold askForInput
    by_cases hv : trim line = []
    · rw [if_pos hv]
      by_cases hd : v.default.isNone = true
      · rw [if_pos hd]
        exact ih e
      · rw [if_neg hd]
        exact ⟨by simp, by simp⟩
    · rw [if_neg hv]
      exact ⟨by simp, by simp⟩

theorem simpleVariable_value_err (v : SimpleVariable) (e : ParseError)
    (h : v.value = .error e) : e = .noValue v.name := by
  unfold SimpleVariable.value at h
  cases hi : v.input with
  | some i => rw [hi] at h; cases h
  | none =>
    rw [hi] at h
    cases hd : v.default with
    | some d => rw [hd] at h; cases h
    | none =>
      rw [hd] at h
      injection h with h
      exact h.symm

theorem buildContextAux_err (vs : List VariableType) :
    ∀ (acc : List (Str × Str)) (e : ParseError),
      buildContextAux acc vs = .error e → ∃ nm, e = .noValue nm := by
  induction vs with
  | nil => intro acc e h; cases h
  | cons v rest ih =>
    intro acc e h
    unfold buildContextAux at h
    cases v with
    | autoGenerated a => exact ih acc e (by simpa using h)
    | input sv =>
      simp only at h
      cases hv : sv.value with
      | ok s => rw [hv] at h; exact ih _ e h
      | error e' =>
        rw [hv] at h
        injection h with h
        subst h
        exact ⟨sv.name, simpleVariable_value_err sv e' hv⟩
    | random rv => exact ih _ e (by simpa using h)

theorem resolveVars_not_err (ud : Bool) (vs : List VariableType) :
    ∀ (term : List Str) (e : ParseError),
      resolveVars ud vs term ≠ .err e ∧ resolveVars ud vs term ≠ .panicked := by
  induction vs with
  | nil =>
    intro term e
    exact ⟨by simp [resolveVars], by simp [resolveVars]⟩
  | cons v rest ih =>
    intro term e
    unfold resolveVars
    cases v with
    | input sv =>
      simp only
      by_cases hask : (sv.input.isNone && !(ud && sv.default.isSome)) = true
      · rw [if_pos hask]
        cases ha : askForInput sv term with
        | ok p =>
          obtain ⟨sv2, term2⟩ := p
          cases hr : resolveVars ud rest term2 with
          | ok q =>
            obtain ⟨vs2, term3⟩ := q
            exact ⟨by simp [hr], by simp [hr]⟩
          | err e2 => exact absurd hr ((ih term2 e2).1)
          | diverges => exact ⟨by simp [hr], by simp [hr]⟩
          | panicked => exact absurd hr (ih term2 e).2
        | err e2 => exact absurd ha (askForInput_not_err sv term e2).1
        | diverges => exact ⟨by simp [ha], by simp [ha]⟩
        | panicked => exact absurd ha (askForInput_not_err sv term e).2
      · rw [if_neg hask]
        cases hr : resolveVars ud rest term with
        | ok q =>
          obtain ⟨vs2, term3⟩ := q
          exact ⟨by simp [hr], by simp [hr]⟩
        | err e2 => exact absurd hr (ih term e2).1
        | diverges => exact ⟨by simp [hr], by simp [hr]⟩
        | panicked => exact absurd hr (ih term e).2
    | autoGenerated a =>
      simp only
      cases hr : resolveVars ud rest term with
      | ok q =>
        obtain ⟨vs2, term3⟩ := q
        exact ⟨by simp [hr], by simp [hr]⟩
      | err e2 => exact absurd hr (ih term e2).1
      | diverges => exact ⟨by simp [hr], by simp [hr]⟩
      | panicked => exact absurd hr (ih term e).2
    | random rv =>
      simp only
      cases hr : resolveVars ud rest term with
      | ok q =>
        obtain ⟨vs2, term3⟩ := q
        exact ⟨by simp [hr], by simp [hr]⟩
      | err e2 => exact absurd hr (ih term e2).1
      | diverges => exact ⟨by simp [hr], by simp [hr]⟩
      | panicked => exact absurd hr (ih term e).2

theorem block_resolve_err (b : Block) (term : List Str) (ud : Bool) (e : ParseError)
    (h : b.resolve term ud = .err e) : ∃ nm, e = .noValue nm := by
  unfold Block.resolve at h
  cases hr : resolveVars ud b.vars term with
  | ok p =>
    obtain ⟨vs, term2⟩ := p
    rw [hr] at h
    simp only at h
    split at h
    · cases h
    · split at h
      next e2 heq =>
        injection h with h
        subst h
        exact buildContextAux_err vs [] e2 heq
      next ctx heq => cases h
  | err e2 => exact absurd hr (resolveVars_not_err ud b.vars term e2).1
  | diverges => rw [hr] at h; cases h
  | panicked => exact absurd hr (resolveVars_not_err ud b.vars term e).2

theorem flush_err (ps : PState) (ud : Bool) (term : List Str) (e : ParseError)
    (h : flush ps ud term = .err e) : ∃ nm, e = .noValue nm := by
  unfold flush at h
  cases hb : ps.buffer with
  | none => rw [hb] at h; cases h
  | some b =>
    rw [hb] at h
    simp only at h
    cases hr : b.resolve term ud with
    | ok p =>
      obtain ⟨b2, term2⟩ := p
      rw [hr] at h
      cases h
    | err e2 =>
      rw [hr] at h
      injection h with h
      subst h
      exact block_resolve_err b term ud e2 hr
    | diverges => rw [hr] at h; cases h
    | panicked => rw [hr] at h; cases h

/-- C1 (amended): at end-of-input, `Parser::parse` fails with the
truncated-block error iff no block is buffered or the buffered block has
zero variables. A trailing blank line flushes the buffer, so —
contrary to the claim — a well-formed template whose last block is followed
by one or more trailing blank lines FAILS: the EOF check
(`.map(|b| !b.variables.is_empty()).unwrap_or(false)`) treats an empty
buffer like a block with no variables. Flush itself is a no-op on an empty
buffer, and the final flush never produces the truncated-block error. -/
theorem c1_truncated_iff (rc : Str) (draws : Nat → Nat → Nat) (ud : Bool)
    (lines terminal : List Str) (ps : PState) (term : List Str) (cursor : Nat)
    (h : processLines rc draws ud lines 0 initPS terminal = .ok (ps, term, cursor)) :
    (∃ pos st, Parser.parse rc draws ud lines terminal = .err (.truncatedBlock pos st)) ↔
      (ps.buffer = none ∨ ∃ b, ps.buffer = some b ∧ b.vars = []) := by
  unfold Parser.parse
  rw [h]
  simp only
  cases hb : ps.buffer with
  | none =>
    rw [show lastBlockHasVars none = false from rfl]
    simp only [Bool.false_eq_true, if_false]
    constructor
    · intro _
      simp
    · intro _
      exact ⟨cursor, ps.state, rfl⟩
  | some b =>
    rw [show lastBlockHasVars (some b) = ! b.vars.isEmpty from rfl]
    by_cases hv : b.vars = []
    · rw [show b.vars.isEmpty = true from by simp [hv]]
      simp only [Bool.not_true, Bool.false_eq_true, if_false]
      constructor
      · intro _
        exact Or.inr ⟨b, rfl, hv⟩
      · intro _
        exact ⟨cursor, ps.state, rfl⟩
    · have hne : b.vars.isEmpty = false := by
        cases hvv : b.vars with
        | nil => exact absurd hvv hv
        | cons x xs => simp
      rw [hne]
      simp only [Bool.not_false, if_true]
      constructor
      · rintro ⟨pos, st, hp⟩
        exfalso
        revert hp
        cases hf : flush ps ud term with
        | ok p =>
          obtain ⟨ps2, term2⟩ := p
          simp [hf]
        | err e =>
          obtain ⟨nm, rfl⟩ := flush_err _ _ _ _ hf
          simp [hf]
        | diverges => simp [hf]
        | panicked => simp [hf]
      · rintro (hnone | ⟨b2, hb2, hv2⟩)
        · cases hnone
        · injection hb2 with hb2
          subst hb2
          exact absurd hv2 hv

/-- C1 counterexample: the template `# T` / `A=1` / (blank line) — a block
with a title and one variable followed by a single trailing blank line —
fails with the truncated-block error, although at end-of-input no block is
buffered (the blank line flushed the block, already resolved, into
`blocks`): the claim's "parsing succeeds even when the last block is
followed by trailing blank lines" is false, and its "iff" lacks the
empty-buffer case. -/
theorem c1_counterexample :
    Parser.parse ['a'] (fun _ _ => 0) false ["# T".toList, "A=1".toList, []] [] =
      .err (.truncatedBlock 3 .title) ∧
    processLines ['a'] (fun _ _ => 0) false ["# T".toList, "A=1".toList, []] 0 initPS [] =
      .ok (⟨.title, none,
        [⟨⟨['T']⟩, none, [.input ⟨['A'], some ['1'], none, none⟩]⟩]⟩, [], 3) := by
  exact ⟨by decide, by decide⟩

/-- Witness for the amended C1 at the two-line template `# T` / `A=1`
(no trailing blank line): the buffered block has a variable, and parsing
does not fail with the truncated-block error. -/
theorem c1_truncated_iff_witness :
    processLines ['a'] (fun _ _ => 0) false ["# T".toList, "A=1".toList] 0 initPS [] =
      .ok (⟨.descOrVars, some ⟨⟨['T']⟩, none,
        [.input ⟨['A'], some ['1'], none, none⟩]⟩, []⟩, [], 2) ∧
    ((∃ pos st, Parser.parse ['a'] (fun _ _ => 0) false ["# T".toList, "A=1".toList] [] =
        .err (.truncatedBlock pos st)) ↔
      ((some (⟨⟨['T']⟩, none, [.input ⟨['A'], some ['1'], none, none⟩]⟩ : Block) = none) ∨
        ∃ b, some (⟨⟨['T']⟩, none, [.input ⟨['A'], some ['1'], none, none⟩]⟩ : Block) =
          some b ∧ b.vars = [])) :=
  ⟨by decide,
    c1_truncated_iff ['a'] (fun _ _ => 0) false ["# T".toList, "A=1".toList] []
      ⟨.descOrVars, some ⟨⟨['T']⟩, none,
        [.input ⟨['A'], some ['1'], none, none⟩]⟩, []⟩ [] 2 (by decide)⟩

theorem processLines_title_step (rc : Str) (draws : Nat → Nat → Nat) (ud : Bool)
    (l : Str) (ls : List Str) (cursor : Nat) (buf : Option Block)
    (blocks : List Block) (term : List Str) (t1 : Str) (h : trim l = '#' :: t1) :
    processLines rc draws ud (l :: ls) cursor ⟨.title, buf, blocks⟩ term =
      processLines rc draws ud ls (cursor + 1)
        ⟨.descOrVars, some (Block.new (Comment.new (trim t1)) none), blocks⟩ term := by
  conv_lhs => rw [processLines]
  rw [h]
  rfl

theorem processLines_desc_step (rc : Str) (draws : Nat → Nat → Nat) (ud : Bool)
    (l : Str) (ls : List Str) (cursor : Nat) (buf : Option Block)
    (blocks : List Block) (term : List Str) (d1 : Str) (h : trim l = '#' :: d1) :
    processLines rc draws ud (l :: ls) cursor ⟨.descOrVars, buf, blocks⟩ term =
      processLines rc draws ud ls (cursor + 1)
        ⟨.vars, buf.map (fun b => { b with description := some (Comment.new (trim d1)) }),
          blocks⟩ term := by
  conv_lhs => rw [processLines]
  rw [h]
  rfl

theorem processLines_vars_err_step (rc : Str) (draws : Nat → Nat → Nat) (ud : Bool)
    (l : Str) (ls : List Str) (cursor : Nat) (buf : Option Block)
    (blocks : List Block) (term : List Str) (e : ParseError)
    (h : trim l ≠ [])
    (he : parseVariable rc (draws (cursor + 1)) (cursor + 1) (trim l) = .err e) :
    processLines rc draws ud (l :: ls) cursor ⟨.vars, buf, blocks⟩ term = .err e := by
  conv_lhs => rw [processLines]
  simp only
  rw [if_neg h, he]

/-- C10: once a block has both a title and a description, a further line
starting with `#` is handed to the variable classifier rather than treated
as a comment; if it contains no `=`, the whole parse fails with the
invalid-variable-line error at that (third) line. -/
theorem c10_hash_line_after_description (rc : Str) (draws : Nat → Nat → Nat)
    (ud : Bool) (terminal : List Str) (t d x : Str) (rest : List Str)
    (t1 d1 x1 : Str)
    (ht : trim t = '#' :: t1) (hd : trim d = '#' :: d1) (hx : trim x = '#' :: x1)
    (hne : '=' ∉ trim x) :
    Parser.parse rc draws ud (t :: d :: x :: rest) terminal =
      .err (.invalidVariableLine 3 (trim x)) := by
  have hsplit : splitOnceChar '=' (trim x) = none := splitOnceChar_eq_none '=' (trim x) hne
  have hpv : parseVariable rc (draws 3) 3 (trim x) =
      .err (.invalidVariableLine 3 (trim x)) := by
    unfold parseVariable
    rw [hsplit]
  have hchain : processLines rc draws ud (t :: d :: x :: rest) 0 initPS terminal =
      .err (.invalidVariableLine 3 (trim x)) := by
    rw [show initPS = ⟨.title, none, []⟩ from rfl]
    rw [processLines_title_step rc draws ud t (d :: x :: rest) 0 none [] terminal t1 ht]
    rw [processLines_desc_step rc draws ud d (x :: rest) 1
      (some (Block.new (Comment.new (trim t1)) none)) [] terminal d1 hd]
    exact processLines_vars_err_step rc draws ud x rest 2 _ [] terminal _
      (by rw [hx]; exact List.cons_ne_nil _ _) hpv
  unfold Parser.parse
  rw [hchain]

/-- Witness for C10 at the template `# T` / `# D` / `#oops`. -/
theorem c10_hash_line_after_description_witness :
    trim "#oops".toList = '#' :: "oops".toList ∧
    '=' ∉ trim "#oops".toList ∧
    Parser.parse ['a'] (fun _ _ => 0) false
        ["# T".toList, "# D".toList, "#oops".toList] [] =
      .err (.invalidVariableLine 3 (trim "#oops".toList)) :=
  ⟨by decide, by decide,
    c10_hash_line_after_description ['a'] (fun _ _ => 0) false []
      "# T".toList "# D".toList "#oops".toList [] " T".toList " D".toList
      "oops".toList (by decide) (by decide) (by decide) (by decide)⟩

/-- Witness for the amended C9 at the value `<random:abc>` on the line
`X=<random:abc>`. -/
theorem c9_random_like_fallthrough_witness :
    isValidName ['X'] = true ∧
    randomVariablePre.isPrefixOf "<random:abc>".toList = true ∧
    isAutoGeneratedVariable "<random:abc>".toList = some false ∧
    parseVariable ['a'] (fun _ => 0) 1 ('X' :: '=' :: "<random:abc>".toList) =
      .ok (.input (SimpleVariable.new ['X'] (some "<random:abc>".toList) none)) :=
  ⟨by decide, by decide, by decide,
    c9_random_like_fallthrough ['a'] (fun _ => 0) 1 ['X'] "<random:abc>".toList
      (by decide) (by decide)
      (fun hs => by
        have hb := (isRandomVariable_fst_true_iff "<random:abc>".toList).mpr hs
        revert hb
        decide)
      (by decide) (by decide)⟩

/-- `Display for Block`. Modelled from the spec: the `src/model.rs` snapshot
implements `Block::as_text` but no `Display for Block`, while
`Display for Parser` in `src/parser.rs` renders each block with
`write!(f, "{}", block)`; the spec's rendering contract (§4.5) makes every
rendered line newline-terminated, so a block displays as its `as_text`
(lines joined by `\n`) followed by a final newline. -/
def Block.displayText (b : Block) : Except ParseError Str :=
  (b.asText).map (fun s => s ++ ['\n'])

/-- `Display for Parser` from `src/parser.rs`: the blocks in order, with one
`writeln!` (a single `\n`) between consecutive blocks and nothing before the
first. -/
def parserDisplay (blocks : List Block) : Except ParseError Str :=
  (blocks.mapM Block.displayText).map joinNL

theorem joinNL_append_newline :
    ∀ (l : Str) (ls : List Str),
      joinNL (l :: ls) ++ ['\n'] = ((l :: ls).map (fun x => x ++ ['\n'])).join := by
  intro l ls
  induction ls generalizing l with
  | nil => simp [joinNL]
  | cons l2 rest ih =>
    show (l ++ '\n' :: joinNL (l2 :: rest)) ++ ['\n'] = _
    rw [List.append_assoc]
    simp only [List.map_cons, List.join]
    rw [show ('\n' :: joinNL (l2 :: rest)) ++ ['\n'] = '\n' :: (joinNL (l2 :: rest) ++ ['\n'])
      from rfl]
    rw [ih l2]
    simp

/-- C5 (spec-modelled rendering): with both blocks' variable lines rendering
successfully, the output of two blocks is — explicitly — each block's title
line, then its description line when present, then its `NAME=value` lines,
every line `\n`-terminated, with exactly one extra `\n` (i.e. exactly one
blank line, since the previous segment already ends in `\n`) between the two
blocks. -/
theorem c5_rendering (t1 d1 : Str) (vs1 : List VariableType) (ls1 : List Str)
    (t2 : Str) (vs2 : List VariableType) (ls2 : List Str)
    (h1 : vs1.mapM VariableType.asText = .ok ls1)
    (h2 : vs2.mapM VariableType.asText = .ok ls2) :
    parserDisplay [⟨⟨t1⟩, some ⟨d1⟩, vs1⟩, ⟨⟨t2⟩, none, vs2⟩] =
      .ok (((("# ".toList ++ t1) :: ("# ".toList ++ d1) :: ls1).map
          (fun l => l ++ ['\n'])).join ++
        '\n' :: ((("# ".toList ++ t2) :: ls2).map (fun l => l ++ ['\n'])).join) := by
  have ha1 : Block.asText ⟨⟨t1⟩, some ⟨d1⟩, vs1⟩ =
      .ok (joinNL (("# ".toList ++ t1) :: ("# ".toList ++ d1) :: ls1)) := by
    unfold Block.asText
    simp only
    rw [h1]
    rfl
  have ha2 : Block.asText ⟨⟨t2⟩, none, vs2⟩ =
      .ok (joinNL (("# ".toList ++ t2) :: ls2)) := by
    unfold Block.asText
    simp only
    rw [h2]
    rfl
  have hd1 : Block.displayText ⟨⟨t1⟩, some ⟨d1⟩, vs1⟩ =
      .ok ((("# ".toList ++ t1) :: ("# ".toList ++ d1) :: ls1).map
        (fun l => l ++ ['\n'])).join := by
    unfold Block.displayText
    rw [ha1]
    simp only [Except.map]
    rw [joinNL_append_newline]
  have hd2 : Block.displayText ⟨⟨t2⟩, none, vs2⟩ =
      .ok ((("# ".toList ++ t2) :: ls2).map (fun l => l ++ ['\n'])).join := by
    unfold Block.displayText
    rw [ha2]
    simp only [Except.map]
    rw [joinNL_append_newline]
  have hmm : ([(⟨⟨t1⟩, some ⟨d1⟩, vs1⟩ : Block), ⟨⟨t2⟩, none, vs2⟩].mapM Block.displayText) =
      Except.ok [((("# ".toList ++ t1) :: ("# ".toList ++ d1) :: ls1).map
          (fun l => l ++ ['\n'])).join,
        ((("# ".toList ++ t2) :: ls2).map (fun l => l ++ ['\n'])).join] := by
    rw [List.mapM_cons, List.mapM_cons, List.mapM_nil, hd1, hd2]
    rfl
  unfold parserDisplay
  rw [hmm]
  show Except.ok (joinNL _) = _
  rw [show ∀ (a b : Str), joinNL [a, b] = a ++ '\n' :: b from fun a b => rfl]

/-- Witness for C5 at two concrete blocks with literal-default variables. -/
theorem c5_rendering_witness :
    ([VariableType.input ⟨['A'], some ['1'], none, none⟩].mapM VariableType.asText =
      (.ok [['A', '=', '1']] : Except ParseError (List Str))) ∧
    parserDisplay
        [⟨⟨['T']⟩, some ⟨['D']⟩, [.input ⟨['A'], some ['1'], none, none⟩]⟩,
         ⟨⟨['U']⟩, none, [.input ⟨['B'], some ['2'], none, none⟩]⟩] =
      .ok (((("# ".toList ++ ['T']) :: ("# ".toList ++ ['D']) :: [['A', '=', '1']]).map
          (fun l => l ++ ['\n'])).join ++
        '\n' :: ((("# ".toList ++ ['U']) :: [['B', '=', '2']]).map
          (fun l => l ++ ['\n'])).join) :=
  ⟨rfl,
    c5_rendering ['T'] ['D'] [.input ⟨['A'], some ['1'], none, none⟩] [['A', '=', '1']]
      ['U'] [.input ⟨['B'], some ['2'], none, none⟩] [['B', '=', '2']]
      rfl rfl⟩

/-- `CharType` from `src/reader.rs`. -/
inductive CharType
  | chr (c : Char)
  | eol
  | eof
deriving DecidableEq, Repr

/-- `CharReader` from `src/reader.rs`, over the template's lines without
their terminators (`path` is omitted — it only decorates error messages). -/
structure RState where
  line : Nat
  column : Nat
  currentLine : Option Str
  rest : List Str
  done : Bool
deriving DecidableEq, Repr

/-- The `Some(line)` branch of `CharReader::next`:
`line.chars().nth(self.column)` yields the next character (column
incremented) or — at the end of the line, where Rust sees the `'\n'`
terminator or nothing — end-of-line, dropping the buffered line without
touching the column. -/
def readFromLine (s : RState) (l : Str) : CharType × RState :=
  match l.get? s.column with
  | some c => (.chr c, { s with column := s.column + 1 })
  | none => (.eol, { s with currentLine := none })

/-- `CharReader::next` from `src/reader.rs`: after the end of input always
`Eof`; with no buffered line, fetch the next one (line counter incremented,
column reset) and read from it; otherwise read from the buffered line. -/
def rnext (s : RState) : CharType × RState :=
  if s.done then (.eof, s)
  else
    match s.currentLine with
    | some l => readFromLine s l
    | none =>
      match s.rest with
      | [] => (.eof, { s with done := true })
      | l :: ls =>
        readFromLine
          { s with currentLine := some l, rest := ls, line := s.line + 1, column := 0 } l

/-- `Token` from `src/tokenizer.rs`. -/
inductive Token
  | text (line col : Nat) (s : Str)
  | commentMark (line col : Nat)
  | helpMark (line col : Nat)
  | equalSign (line col : Nat)
deriving DecidableEq, Repr

/-- A `usize` cast `as i8`: wrap modulo 256 into `[-128, 127]`. -/
def i8OfNat (n : Nat) : Int :=
  if n % 256 < 128 then (n % 256 : Int) else (n % 256 : Int) - 256

/-- `i8` addition with release-mode wrapping (a debug build would panic on
overflow instead; the wrapped value is what the published binary computes). -/
def i8Add (a b : Int) : Int := ((a + b + 128) % 256) - 128

/-- An `i8` cast `as usize`: sign-extension, i.e. the value modulo `2^64`. -/
def i8AsUsize (x : Int) : Nat := (x % 2 ^ 64).toNat

/-- `usize` subtraction with release-mode wrapping. -/
def usizeSub (a b : Nat) : Nat := (((a : Int) - (b : Int)) % 2 ^ 64).toNat

/-- The UTF-8 byte length of a string (Rust `str::len`). -/
def byteLen (s : Str) : Nat := (s.map Char.utf8Size).sum

/-- `Tokenizer::text` from `src/tokenizer.rs`: the `Text` token's column is
back-computed as `reader.column - adjust`, where `adjust` is an `i8` equal
to the buffer's BYTE length plus `-1` when the token was closed by
end-of-line (no marker consumed) or `+2` when closed by a help mark (two
stripped spaces); the token's string is the trimmed buffer. -/
def textToken (line col : Nat) (buffer : Str) (eol prependsHelp : Bool) : Token :=
  let base : Int :=
    match eol, prependsHelp with
    | true, false => -1
    | false, true => 2
    | _, _ => 0
  let adjust : Int := i8Add base (i8OfNat (byteLen buffer))
  .text line (usizeSub col (i8AsUsize adjust)) (trim buffer)

/-- `buffer.ends_with("  ")`. -/
def endsTwoSpaces (buffer : Str) : Bool := [' ', ' '].isSuffixOf buffer

/-- One call to `Tokenizer::next_tokens`, with an explicit bound on loop
iterations (each iteration consumes one reader step, so the driver's bound
is always sufficient; on exhaustion no token is emitted). Returns up to two
tokens — text first, marker second — and the advanced reader, mirroring the
`(Option<Token>, Option<Token>)` return. Each emitted first token is paired
with a ghost observation that does not influence the computation: for a
`Text` token, the reader column right after the first character of its
buffer was read — i.e. the column of the token's first character — recorded
at the moment that character was pushed into the empty buffer. -/
def nextTokensF :
    Nat → RState → Str → Option Nat →
      Option (Token × Option Nat) × Option Token × RState
  | 0, s, _, _ => (none, none, s)
  | fuel + 1, s, buffer, ghost =>
    match rnext s with
    | (.eof, s') => (none, none, s')
    | (.eol, s') =>
      if buffer = [] then nextTokensF fuel s' [] none
      else (some (textToken s'.line s'.column buffer true false, ghost), none, s')
    | (.chr c, s') =>
      let mark : Option (Token × Bool × Str) :=
        if c = '=' then some (.equalSign s'.line s'.column, false, buffer)
        else if c = '#' then
          if s'.column = 1 then some (.commentMark s'.line s'.column, false, buffer)
          else if endsTwoSpaces buffer then
            some (.helpMark s'.line (s'.column - 2), true, buffer.dropLast.dropLast)
          else none
        else none
      match mark with
      | some (t, ph, buf2) =>
        if buf2 = [] then (some (t, none), none, s')
        else (some (textToken s'.line s'.column buf2 false ph, ghost), some t, s')
      | none =>
        let ghost' := if buffer = [] then some s'.column else ghost
        nextTokensF fuel s' (buffer ++ [c]) ghost'

/-- Reader steps remaining: an upper bound on `next_tokens` loop iterations. -/
def rmeasure (s : RState) : Nat :=
  (match s.currentLine with
   | some l => l.length - s.column + 1
   | none => 0) +
  (s.rest.map (fun l => l.length + 1)).sum +
  (if s.done then 0 else 1)

/-- The token stream of `Tokenizer` as `Iterator`, flattened: the iterator
hands out the pairs returned by `next_tokens` in position order through its
one-token look-ahead buffer, which is exactly this concatenation. -/
def tokenizeAux : Nat → RState → List (Token × Option Nat)
  | 0, _ => []
  | fuel + 1, s =>
    match nextTokensF (rmeasure s + 1) s [] none with
    | (none, _, _) => []
    | (some t1, none, s') => t1 :: tokenizeAux fuel s'
    | (some t1, some t2, s') => t1 :: (t2, none) :: tokenizeAux fuel s'

/-- All tokens produced for the given input lines, each paired with its
ghost first-character column (markers carry `none`). -/
def tokenize (lines : List Str) : List (Token × Option Nat) :=
  tokenizeAux (rmeasure ⟨0, 0, none, lines, false⟩ + 1) ⟨0, 0, none, lines, false⟩

/-- An input line the column arithmetic is exact for: at most 125
characters, each a single UTF-8 byte. -/
def lineOK (l : Str) : Prop := l.length ≤ 125 ∧ ∀ c ∈ l, c.utf8Size = 1

/-- Reader well-formedness: the buffered line (with the column inside it)
and every remaining line satisfy `lineOK`. -/
def stateOK (s : RState) : Prop :=
  (∀ l, s.currentLine = some l → lineOK l ∧ s.column ≤ l.length) ∧
  (∀ l ∈ s.rest, lineOK l)

/-- Loop invariant tying the token buffer to the reader: a nonempty buffer
was read off the current line, fits before the reader column, is all-ASCII,
and the ghost records the column right after its first character. -/
def bufOK (s : RState) (buffer : Str) (ghost : Option Nat) : Prop :=
  buffer ≠ [] →
    (∃ l, s.currentLine = some l) ∧
    buffer.length ≤ s.column ∧
    ghost = some (s.column - buffer.length + 1) ∧
    (∀ c ∈ buffer, c.utf8Size = 1)

theorem byteLen_ascii (buffer : Str) (h : ∀ c ∈ buffer, c.utf8Size = 1) :
    byteLen buffer = buffer.length := by
  induction buffer with
  | nil => rfl
  | cons c rest ih =>
    have hc := h c (List.mem_cons_self c rest)
    have hr := ih (fun d hd => h d (List.mem_cons_of_mem c hd))
    simp only [byteLen, List.map_cons, List.sum_cons, List.length_cons] at hr ⊢
    rw [hc, hr]
    omega

theorem textToken_marker (line col : Nat) (buffer : Str)
    (h1 : byteLen buffer = buffer.length) (h2 : buffer.length ≤ 125)
    (h3 : buffer.length ≤ col) (h4 : col ≤ 130) :
    textToken line col buffer false false =
      .text line (col - buffer.length) (trim buffer) := by
  unfold textToken i8Add i8OfNat i8AsUsize usizeSub
  rw [h1]
  simp only [Token.text.injEq, true_and, and_true, eq_self_iff_true]
  omega

theorem textToken_help (line col : Nat) (buffer : Str)
    (h1 : byteLen buffer = buffer.length) (h2 : buffer.length + 2 ≤ 127)
    (h3 : buffer.length + 2 ≤ col) (h4 : col ≤ 130) :
    textToken line col buffer false true =
      .text line (col - (buffer.length + 2)) (trim buffer) := by
  unfold textToken i8Add i8OfNat i8AsUsize usizeSub
  rw [h1]
  simp only [Token.text.injEq, true_and, and_true, eq_self_iff_true]
  omega

theorem textToken_eol (line col : Nat) (buffer : Str)
    (h1 : byteLen buffer = buffer.length) (h2 : buffer.length ≤ 126)
    (h0 : 1 ≤ buffer.length) (h3 : buffer.length - 1 ≤ col) (h4 : col ≤ 130) :
    textToken line col buffer true false =
      .text line (col - (buffer.length - 1)) (trim buffer) := by
  unfold textToken i8Add i8OfNat i8AsUsize usizeSub
  rw [h1]
  simp only [Token.text.injEq, true_and, and_true, eq_self_iff_true]
  omega

theorem endsTwoSpaces_decomp (buffer : Str) (h : endsTwoSpaces buffer = true) :
    buffer = buffer.dropLast.dropLast ++ [' ', ' '] ∧
    buffer.dropLast.dropLast.length + 2 = buffer.length := by
  rw [endsTwoSpaces, List.isSuffixOf_iff_suffix] at h
  obtain ⟨t, ht⟩ := h
  have hb : buffer = (t ++ [' ']) ++ [' '] := by rw [← ht]; simp
  have hdrop : buffer.dropLast.dropLast = t := by
    rw [hb, List.dropLast_concat, List.dropLast_concat]
  constructor
  · rw [hdrop, hb]; simp
  · rw [hdrop, hb]; simp

theorem nextTokensF_cols (fuel : Nat) :
    ∀ (s : RState) (buffer : Str) (ghost : Option Nat),
      stateOK s → bufOK s buffer ghost →
      stateOK (nextTokensF fuel s buffer ghost).2.2 ∧
      (∀ ln col str g,
        (nextTokensF fuel s buffer ghost).1 = some (.text ln col str, g) →
          g = some col) ∧
      (∀ ln col str,
        (nextTokensF fuel s buffer ghost).2.1 ≠ some (.text ln col str)) := by
  induction fuel with
  | zero =>
    intro s buffer ghost hst _
    refine ⟨hst, ?_, ?_⟩
    · intro ln col str g h
      simp [nextTokensF] at h
    · intro ln col str h
      simp [nextTokensF] at h
  | succ n ih =>
    rintro ⟨ln0, col, cl, rest, done⟩ buffer ghost hst hbuf
    cases done with
    | true =>
      refine ⟨hst, ?_, ?_⟩ <;> intro ln col str
      · intro g h
        simp [nextTokensF, rnext] at h
      · intro h
        simp [nextTokensF, rnext] at h
    | false =>
      cases cl with
      | some l =>
        obtain ⟨hlOK, hcol⟩ := hst.1 l rfl
        simp only at hcol
        have hl125 : l.length ≤ 125 := hlOK.1
        cases hget : l.get? col with
        | some c =>
          have hmem : c ∈ l := List.get?_mem hget
          have hasc : c.utf8Size = 1 := hlOK.2 c hmem
          have hgetE : l[col]? = some c := by
            rw [← List.get?_eq_getElem?]
            exact hget
          have hlt : col < l.length := by
            rw [List.get?_eq_some] at hget
            exact hget.1
          have hstOK' : stateOK ⟨ln0, col + 1, some l, rest, false⟩ := by
            constructor
            · intro l2 hl2
              injection hl2 with hl2
              subst hl2
              exact ⟨hlOK, hlt⟩
            · exact hst.2
          have hpush : bufOK ⟨ln0, col + 1, some l, rest, false⟩ (buffer ++ [c])
              (if buffer = [] then some (col + 1) else ghost) := by
            intro _
            by_cases hbe : buffer = []
            · subst hbe
              rw [if_pos rfl]
              exact ⟨⟨l, rfl⟩, by simp, by simp, by
                intro d hd
                simp at hd
                rw [hd]
                exact hasc⟩
            · rw [if_neg hbe]
              obtain ⟨⟨l2, hl2⟩, hlen, hg, hascii⟩ := hbuf hbe
              simp only at hlen hg
              refine ⟨⟨l, rfl⟩, by simp; omega, ?_, ?_⟩
              · rw [hg]
                simp only [List.length_append, List.length_cons, List.length_nil]
                congr 1
                omega
              · intro d hd
                rcases List.mem_append.mp hd with hd | hd
                · exact hascii d hd
                · simp at hd
                  rw [hd]
                  exact hasc
          by_cases hceq : c = '='
          · by_cases hbe : buffer = []
            · have hred : nextTokensF (n + 1) ⟨ln0, col, some l, rest, false⟩ buffer ghost =
                  (some (.equalSign ln0 (col + 1), none), none,
                    ⟨ln0, col + 1, some l, rest, false⟩) := by
                conv_lhs => rw [nextTokensF]
                simp [rnext, readFromLine, hgetE, hceq, hbe]
              rw [hred]
              refine ⟨hstOK', ?_, ?_⟩ <;> intro ln col str
              · intro g h
                simp at h
              · intro h
                simp at h
            · have hred : nextTokensF (n + 1) ⟨ln0, col, some l, rest, false⟩ buffer ghost =
                  (some (textToken ln0 (col + 1) buffer false false, ghost),
                    some (.equalSign ln0 (col + 1)),
                    ⟨ln0, col + 1, some l, rest, false⟩) := by
                conv_lhs => rw [nextTokensF]
                simp [rnext, readFromLine, hgetE, hceq, hbe]
              rw [hred]
              obtain ⟨⟨l2, hl2⟩, hlen, hg, hascii⟩ := hbuf hbe
              simp only at hlen hg
              refine ⟨hstOK', ?_, ?_⟩
              · intro ln2 col2 str2 g h
                rw [textToken_marker _ _ _ (byteLen_ascii buffer hascii)
                  (by omega) (by omega) (by omega)] at h
                simp only [Option.some.injEq, Prod.mk.injEq, Token.text.injEq] at h
                obtain ⟨⟨_, hc2, _⟩, hg2⟩ := h
                rw [← hg2, hg, ← hc2]
                congr 1
                omega
              · intro ln2 col2 str2 h
                simp at h
          · by_cases hch : c = '#'
            · by_cases hc0 : col = 0
              · subst hc0
                have hbe : buffer = [] := by
                  by_contra hbe
                  obtain ⟨_, hlen, _, _⟩ := hbuf hbe
                  simp only at hlen
                  simp at hlen
                  exact hbe hlen
                have hred : nextTokensF (n + 1) ⟨ln0, 0, some l, rest, false⟩ buffer ghost =
                    (some (.commentMark ln0 1, none), none,
                      ⟨ln0, 1, some l, rest, false⟩) := by
                  conv_lhs => rw [nextTokensF]
                  simp [rnext, readFromLine, hgetE, hceq, hch, hbe]
                rw [hred]
                refine ⟨hstOK', ?_, ?_⟩ <;> intro ln col str
                · intro g h
                  simp at h
                · intro h
                  simp at h
              · by_cases hsp : endsTwoSpaces buffer = true
                · obtain ⟨hdecomp, hdlen⟩ := endsTwoSpaces_decomp buffer hsp
                  by_cases hb2 : buffer.dropLast.dropLast = []
                  · have hred : nextTokensF (n + 1) ⟨ln0, col, some l, rest, false⟩
                        buffer ghost =
                        (some (.helpMark ln0 (col + 1 - 2), none), none,
                          ⟨ln0, col + 1, some l, rest, false⟩) := by
                      conv_lhs => rw [nextTokensF]
                      simp [rnext, readFromLine, hgetE, hceq, hch, hsp, hb2,
                        show ¬(col + 1 = 1) from by omega]
                    rw [hred]
                    refine ⟨hstOK', ?_, ?_⟩ <;> intro ln col str
                    · intro g h
                      simp at h
                    · intro h
                      simp at h
                  · have hred : nextTokensF (n + 1) ⟨ln0, col, some l, rest, false⟩
                        buffer ghost =
                        (some (textToken ln0 (col + 1) buffer.dropLast.dropLast
                            false true, ghost),
                          some (.helpMark ln0 (col + 1 - 2)),
                          ⟨ln0, col + 1, some l, rest, false⟩) := by
                      conv_lhs => rw [nextTokensF]
                      simp [rnext, readFromLine, hgetE, hceq, hch, hsp, hb2,
                        show ¬(col + 1 = 1) from by omega]
                    rw [hred]
                    have hbe : buffer ≠ [] := by
                      intro hx
                      rw [hx] at hdecomp
                      simp at hdecomp
                    obtain ⟨⟨l2, hl2⟩, hlen, hg, hascii⟩ := hbuf hbe
                    simp only at hlen hg
                    have hascii2 : ∀ d ∈ buffer.dropLast.dropLast, d.utf8Size = 1 := by
                      intro d hd
                      exact hascii d (by rw [hdecomp]; exact List.mem_append_left _ hd)
                    refine ⟨hstOK', ?_, ?_⟩
                    · intro ln2 col2 str2 g h
                      rw [textToken_help _ _ _ (byteLen_ascii _ hascii2)
                        (by omega) (by omega) (by omega)] at h
                      simp only [Option.some.injEq, Prod.mk.injEq, Token.text.injEq] at h
                      obtain ⟨⟨_, hc2, _⟩, hg2⟩ := h
                      rw [← hg2, hg, ← hc2]
                      congr 1
                      omega
                    · intro ln2 col2 str2 h
                      simp at h
                · have hred : nextTokensF (n + 1) ⟨ln0, col, some l, rest, false⟩
                      buffer ghost =
                      nextTokensF n ⟨ln0, col + 1, some l, rest, false⟩ (buffer ++ [c])
                        (if buffer = [] then some (col + 1) else ghost) := by
                    conv_lhs => rw [nextTokensF]
                    simp [rnext, readFromLine, hgetE, hceq, hch, hsp,
                      show ¬(col + 1 = 1) from by omega]
                  rw [hred]
                  exact ih _ _ _ hstOK' hpush
            · have hred : nextTokensF (n + 1) ⟨ln0, col, some l, rest, false⟩
                  buffer ghost =
                  nextTokensF n ⟨ln0, col + 1, some l, rest, false⟩ (buffer ++ [c])
                    (if buffer = [] then some (col + 1) else ghost) := by
                conv_lhs => rw [nextTokensF]
                simp [rnext, readFromLine, hgetE, hceq, hch]
              rw [hred]
              exact ih _ _ _ hstOK' hpush
        | none =>
          have hgetE : l[col]? = none := by
            rw [← List.get?_eq_getElem?]
            exact hget
          have hred : nextTokensF (n + 1) ⟨ln0, col, some l, rest, false⟩ buffer ghost =
              (if buffer = [] then
                nextTokensF n ⟨ln0, col, none, rest, false⟩ [] none
               else
                (some (textToken ln0 col buffer true false, ghost), none,
                  ⟨ln0, col, none, rest, false⟩)) := by
            conv_lhs => rw [nextTokensF]
            simp [rnext, readFromLine, hget, hgetE]
          have hstOK' : stateOK ⟨ln0, col, none, rest, false⟩ := by
            constructor
            · intro l2 hl2
              cases hl2
            · exact hst.2
          rw [hred]
          by_cases hbe : buffer = []
          · rw [if_pos hbe]
            exact ih _ [] none hstOK' (fun h => absurd rfl h)
          · rw [if_neg hbe]
            obtain ⟨⟨l2, hl2⟩, hlen, hg, hascii⟩ := hbuf hbe
            simp only at hlen hg
            have hnel : 1 ≤ buffer.length := by
              cases hb : buffer with
              | nil => exact absurd hb hbe
              | cons x xs => simp
            refine ⟨hstOK', ?_, ?_⟩
            · intro ln2 col2 str2 g h
              rw [textToken_eol _ _ _ (byteLen_ascii buffer hascii)
                (by omega) hnel (by omega) (by omega)] at h
              simp only [Option.some.injEq, Prod.mk.injEq, Token.text.injEq] at h
              obtain ⟨⟨_, hc2, _⟩, hg2⟩ := h
              rw [← hg2, hg, ← hc2]
              congr 1
              omega
            · intro ln2 col2 str2 h
              simp at h
      | none =>
        have hbe : buffer = [] := by
          by_contra hbe
          obtain ⟨⟨l2, hl2⟩, _, _, _⟩ := hbuf hbe
          cases hl2
        subst hbe
        cases rest with
        | nil =>
          have hred : nextTokensF (n + 1) ⟨ln0, col, none, [], false⟩ [] ghost =
              (none, none, ⟨ln0, col, none, [], true⟩) := by
            conv_lhs => rw [nextTokensF]
            simp [rnext]
          rw [hred]
          refine ⟨?_, ?_, ?_⟩
          · constructor
            · intro l2 hl2
              cases hl2
            · intro l2 hl2
              cases hl2
          · intro ln col str g h
            simp at h
          · intro ln col str h
            simp at h
        | cons l ls =>
          have hlOK : lineOK l := hst.2 l (List.mem_cons_self l ls)
          cases hget : l.get? 0 with
          | some c =>
            have hmem : c ∈ l := List.get?_mem hget
            have hasc : c.utf8Size = 1 := hlOK.2 c hmem
            have hgetE : l[0]? = some c := by
              rw [← List.get?_eq_getElem?]
              exact hget
            have hlt : 0 < l.length := by
              rw [List.get?_eq_some] at hget
              exact hget.1
            have hred : nextTokensF (n + 1) ⟨ln0, col, none, l :: ls, false⟩ [] ghost =
                (let s' : RState := ⟨ln0 + 1, 1, some l, ls, false⟩
                 if c = '=' then (some (.equalSign s'.line s'.column, none), none, s')
                 else if c = '#' then (some (.commentMark s'.line s'.column, none), none, s')
                 else nextTokensF n s' [c] (some 1)) := by
              conv_lhs => rw [nextTokensF]
              simp [rnext, readFromLine, hget, hgetE]
              by_cases hceq : c = '='
              · simp [hceq]
              · by_cases hch : c = '#'
                · simp [hceq, hch, endsTwoSpaces]
                · simp [hceq, hch]
            have hstOK' : stateOK ⟨ln0 + 1, 1, some l, ls, false⟩ := by
              constructor
              · intro l2 hl2
                injection hl2 with hl2
                subst hl2
                exact ⟨hlOK, hlt⟩
              · intro l2 hl2
                exact hst.2 l2 (List.mem_cons_of_mem l hl2)
            rw [hred]
            simp only
            by_cases hceq : c = '='
            · rw [if_pos hceq]
              refine ⟨hstOK', ?_, ?_⟩ <;> intro ln col str
              · intro g h
                simp at h
              · intro h
                simp at h
            · rw [if_neg hceq]
              by_cases hch : c = '#'
              · rw [if_pos hch]
                refine ⟨hstOK', ?_, ?_⟩ <;> intro ln col str
                · intro g h
                  simp at h
                · intro h
                  simp at h
              · rw [if_neg hch]
                apply ih _ [c] (some 1) hstOK'
                intro _
                exact ⟨⟨l, rfl⟩, by simp, by simp, by
                  intro d hd
                  simp at hd
                  rw [hd]
                  exact hasc⟩
          | none =>
            have hgetE : l[0]? = none := by
              rw [← List.get?_eq_getElem?]
              exact hget
            have hred : nextTokensF (n + 1) ⟨ln0, col, none, l :: ls, false⟩ [] ghost =
                nextTokensF n ⟨ln0 + 1, 0, none, ls, false⟩ [] none := by
              conv_lhs => rw [nextTokensF]
              simp [rnext, readFromLine, hget, hgetE]
            have hstOK' : stateOK ⟨ln0 + 1, 0, none, ls, false⟩ := by
              constructor
              · intro l2 hl2
                cases hl2
              · intro l2 hl2
                exact hst.2 l2 (List.mem_cons_of_mem l hl2)
            rw [hred]
            exact ih _ [] none hstOK' (fun h => absurd rfl h)

theorem tokenizeAux_cols (fuel : Nat) :
    ∀ (s : RState), stateOK s →
      ∀ p ∈ tokenizeAux fuel s, ∀ ln col str, p.1 = .text ln col str →
        p.2 = some col := by
  induction fuel with
  | zero =>
    intro s _ p hp
    simp [tokenizeAux] at hp
  | succ n ih =>
    intro s hst p hp
    have hmain := nextTokensF_cols (rmeasure s + 1) s [] none hst (fun h => absurd rfl h)
    rw [tokenizeAux] at hp
    rcases hr : nextTokensF (rmeasure s + 1) s [] none with ⟨r1, r2, s'⟩
    rw [hr] at hp hmain
    simp only at hmain
    obtain ⟨hstOK', htext, hmark⟩ := hmain
    cases r1 with
    | none =>
      simp at hp
    | some t1 =>
      cases r2 with
      | none =>
        simp only at hp
        rcases List.mem_cons.mp hp with heq | hp2
        · subst heq
          intro ln col str hpt
          exact htext ln col str p.2 (by rw [← hpt])
        · exact ih s' hstOK' p hp2
      | some t2 =>
        simp only at hp
        rcases List.mem_cons.mp hp with heq | hp2
        · subst heq
          intro ln col str hpt
          exact htext ln col str p.2 (by rw [← hpt])
        · rcases List.mem_cons.mp hp2 with heq | hp3
          · subst heq
            intro ln col str hpt
            exact absurd (by rw [show t2 = Token.text ln col str from hpt])
              (hmark ln col str)
          · exact ih s' hstOK' p hp3

/-- C8 (amended): for every `Text` token the tokenizer emits on input lines
that are ASCII (one UTF-8 byte per character) and at most 125 characters
long, the token's recorded column equals the column of the first character
of its buffered text (the ghost observation), in all three closing
conditions. The restriction is forced: the buffer length enters the column
arithmetic as its BYTE length cast to a wrapping 8-bit value, so a
multi-byte character (see the counterexample `é`) or a buffer beyond the
`i8` range (a 130-character line yields column 257) breaks the equality —
the 125 bound keeps `byte length + 2` within `i8` for every closing
condition. -/
theorem c8_text_column (lines : List Str)
    (h : ∀ l ∈ lines, l.length ≤ 125 ∧ ∀ c ∈ l, c.utf8Size = 1) :
    ∀ p ∈ tokenize lines, ∀ ln col str, p.1 = .text ln col str →
      p.2 = some col := by
  apply tokenizeAux_cols
  constructor
  · intro l hl
    cases hl
  · exact h

set_option maxRecDepth 20000 in
/-- C8 counterexample: on the line `é=1` the `Text` token for `é` records
column 0 while its first character sits at column 1 (byte length 2 vs one
character); on a 130-character ASCII line the recorded column is 257, not 1
(the byte length 130 wraps as an `i8` to −126). -/
theorem c8_counterexample :
    tokenize [['é', '=', '1']] =
      [(.text 1 0 ['é'], some 1), (.equalSign 1 2, none), (.text 1 3 ['1'], some 3)] ∧
    (0 : Nat) ≠ 1 ∧
    tokenize [List.replicate 130 'a'] =
      [(.text 1 257 (List.replicate 130 'a'), some 1)] ∧
    (257 : Nat) ≠ 1 := by
  refine ⟨by decide, by decide, ?_, by decide⟩
  decide

/-- Witness for the amended C8 on the line `A=1`. -/
theorem c8_text_column_witness :
    (∀ l ∈ [("A=1".toList : Str)], l.length ≤ 125 ∧ ∀ c ∈ l, c.utf8Size = 1) ∧
    (∀ p ∈ tokenize ["A=1".toList], ∀ ln col str, p.1 = .text ln col str →
      p.2 = some col) :=
  ⟨by decide, c8_text_column ["A=1".toList] (by decide)⟩
